import Mathlib

/-!
Verification development for the ecsinrdf graft-matching tool.

The repository flattens two hierarchical field-naming schemas (a canonical
taxonomy and independently authored field sets) into an RDF statement set and
answers suffix/type graft queries over the resulting graph.

Embedded here, faithfully from the source:
  * the taxonomy-mode flattener (`schema.Statements`, `src/unnamed/part_002`),
  * the authored-mode flattener (`integration.Statements`,
    second part of `src/query/grafting.go`),
  * the graft matcher (`CandidateGraftsIn`, `CandidateGraftsFor`,
    `walkMatchingPath` and the predicate helpers, `src/unnamed/part_001`).

The SHA-1 digest used for content-addressed node labels comes from Go's
standard library; it is abstracted as a parameter `d : String → String`
standing for the lowercase-hex digest of the UTF-8 bytes of its argument
(the Go code writes the namespace bytes then the path bytes into the hash,
which is the digest of their concatenation).  Concrete instantiations use an
injective stand-in digest.

The graph and query algebra live in gonum's `graph/formats/rdf` package,
which is not part of this repository's sources.  Modelled from the spec:
a `Query` holds a current set of terms over an immutable statement set;
`Out`/`In` follow statements subject-to-object / object-to-subject through a
dynamic predicate filter, `And`/`Not` are set intersection and difference,
`Unique` dedupes and `Result` materialises a deterministic sequence
(statement order of the graph here), and `TermFor` finds the term with a
given textual value.  Terms are compared by value, so a term is represented
by its value string: blank nodes as `_:hexhash`, literals as quoted strings,
predicates as `<pred:name>` tokens, exactly as in the N-Quad surface syntax
the Go code parses.
-/

namespace EcsInRdf

/-- An RDF triple; terms are represented by their textual values
(`_:blank`, `<predicate>`, `"literal"`), matching value-equality of
`rdf.Term` in the source. -/
structure Stmt where
  sub : String
  pred : String
  obj : String
deriving DecidableEq, Repr

/-- Go `strconv.Quote` for the escape-free strings that field paths, names
and types are: wrap in double quotes. -/
def quote (s : String) : String := "\"" ++ s ++ "\""

/-- Go `strconv.Unquote` for escape-free literals: strip one double quote
from each end, failing if they are absent. -/
def unquote (s : String) : Option String :=
  match s.data with
  | '"' :: rest =>
      if rest.getLast? = some '"' then some (String.mk rest.dropLast) else none
  | _ => none

/-- Go `strings.Split(s, ".")`: split on every dot, never empty. -/
def splitDotChars : List Char → List (List Char)
  | [] => [[]]
  | c :: rest =>
      if c = '.' then [] :: splitDotChars rest
      else
        match splitDotChars rest with
        | [] => [[c]]
        | l :: ls => (c :: l) :: ls

/-- Go `strings.Split(s, ".")` on strings. -/
def splitDot (s : String) : List String :=
  (splitDotChars s.data).map String.mk

/-- Go `strings.Join(l, ".")`. -/
def joinDot : List String → String
  | [] => ""
  | [s] => s
  | s :: rest => s ++ "." ++ joinDot rest

/-- Modelled from the spec: a query over the graph's statement set holding a
current term set (gonum `rdf.Query`; the implementation is outside this
repository's sources). -/
structure Query where
  g : List Stmt
  terms : List String
deriving Repr

namespace Query

/-- Modelled from the spec: objects of statements matching the filter whose
subject is in the current set (`Query.Out`). -/
def Out (q : Query) (f : Stmt → Bool) : Query :=
  ⟨q.g, (q.g.filter (fun s => f s && q.terms.contains s.sub)).map (·.obj)⟩

/-- Modelled from the spec: subjects of statements matching the filter whose
object is in the current set (`Query.In`). -/
def In (q : Query) (f : Stmt → Bool) : Query :=
  ⟨q.g, (q.g.filter (fun s => f s && q.terms.contains s.obj)).map (·.sub)⟩

/-- Modelled from the spec: set intersection with another query's result
(`Query.And`). -/
def And (q r : Query) : Query :=
  ⟨q.g, q.terms.filter (fun t => r.terms.contains t)⟩

/-- Modelled from the spec: set difference with another query's result
(`Query.Not`). -/
def Not (q r : Query) : Query :=
  ⟨q.g, q.terms.filter (fun t => !r.terms.contains t)⟩

/-- Modelled from the spec: dedupe the current term set (`Query.Unique`). -/
def Unique (q : Query) : Query :=
  ⟨q.g, q.terms.dedup⟩

/-- Modelled from the spec: materialise the current term set as a
deterministic sequence (`Query.Result`). -/
def Result (q : Query) : List String := q.terms

end Query

/-- Modelled from the spec: `Graph.TermFor` returns the term equal to a given
textual value, or not-found.  A term exists exactly when its value occurs in
some statement. -/
def TermFor (g : List Stmt) (v : String) : Option String :=
  if g.any (fun s => s.sub == v || s.pred == v || s.obj == v) then some v else none

/-- Predicate helper byUsedType: filters statements on the used type. -/
def byUsedType (s : Stmt) : Bool := s.pred == "<as:type>"

/-- Predicate helper isPublished: filters statements on the published
attribute. -/
def isPublished (s : Stmt) : Bool :=
  s.pred == "<is:published>" && s.obj == quote "true"

/-- Predicate helper byName: filters statements referring to name. -/
def byName (s : Stmt) : Bool := s.pred == "<is:name>"

/-- Predicate helper byPath: filters statements referring to path. -/
def byPath (s : Stmt) : Bool := s.pred == "<is:path>"

/-- Predicate helper hasChild: filters statements referring to path
relationships. -/
def hasChild (s : Stmt) : Bool := s.pred == "<has:child>"

/-- The `matchingType` closure of `walkMatchingPath`. -/
def matchTypeP (typ : String) (s : Stmt) : Bool :=
  s.pred == "<is:type>" && s.obj == typ

/-- The `matchingName` closure of `walkMatchingPath`. -/
def matchNameP (p : String) (s : Stmt) : Bool :=
  s.pred == "<is:name>" && s.obj == quote p

/-- The errors the query entry points return. -/
inductive QErr where
  | notFound
  | pathNotFound
  | typeNotFound
  | badUnquote
  | noType
  | multipleTypes (typs : List String)
deriving DecidableEq, Repr

/-- The type filter applied at the head of `walkMatchingPath`:
`q.Out(matchingType).In(matchingType).And(q)`. -/
def typeFiltered (q : Query) (typ : String) : Query :=
  ((q.Out (matchTypeP typ)).In (matchTypeP typ)).And q

/-- One iteration of the walk loop in `walkMatchingPath`:
`c := q.In(hasChild); c.Out(matchingName).In(matchingName).And(c)`. -/
def stepQ (q : Query) (p : String) : Query :=
  let c := q.In hasChild
  ((c.Out (matchNameP p)).In (matchNameP p)).And c

/-- The per-level result collection of the walk loop:
`q.Out(byPath).Unique().Result()`. -/
def stepR (q : Query) (p : String) : List String :=
  (((stepQ q p).Out byPath).Unique).Result

/-- The loop of `walkMatchingPath` over path segments `p_{n-2} … p_0`:
stops at the first level whose collected result is empty, returning the
previously recorded result (initially empty). -/
def walkLoop (q : Query) (names : List String) (final : List String) :
    List String :=
  match names with
  | [] => final
  | p :: rest =>
      if stepR q p = [] then final else walkLoop (stepQ q p) rest (stepR q p)

/-- Function walkMatchingPath from `src/unnamed/part_001` lines 103-134: filter the
start set by declared type, then walk `has:child` edges backwards over the
path segments, collecting `is:path` literals at each surviving level. -/
def walkMatchingPath (q : Query) (typ : String) (path : List String) :
    List String :=
  walkLoop (typeFiltered q typ) ((path.take (path.length - 1)).reverse) []

/-- The path-anchored query of `CandidateGraftsIn`:
`g.Query(node).In(byPath)` where the node is the quoted full path literal. -/
def graftQ (g : List Stmt) (full : String) : Query :=
  (Query.mk g [full]).In byPath

/-- The declared-type collection of `CandidateGraftsIn`:
`q.Out(isPublished).In(isPublished).And(q).Out(byUsedType).Unique().Result()`. -/
def graftTyps (g : List Stmt) (full : String) : List String :=
  (((((graftQ g full).Out isPublished).In isPublished).And
      (graftQ g full)).Out byUsedType).Unique.Result

/-- The candidate seed pool of `CandidateGraftsIn`: all other nodes with the
same name, `q.Out(byName).In(byName).Not(q)`. -/
def graftSeed (g : List Stmt) (full : String) : Query :=
  (((graftQ g full).Out byName).In byName).Not (graftQ g full)

/-- Function CandidateGraftsIn from `src/unnamed/part_001` lines 34-67: the field
with the given quoted full path must already be in the graph; its single
declared type is read from its own node, then candidate grafts with the same
name are walked. -/
def CandidateGraftsIn (g : List Stmt) (full : String) :
    Except QErr (List String) :=
  match TermFor g full with
  | none => .error .notFound
  | some node =>
    match unquote full with
    | none => .error .badUnquote
    | some f =>
      match graftTyps g node with
      | [] => .error .noType
      | [t] => .ok (walkMatchingPath (graftSeed g node) t (splitDot f))
      | ts => .error (.multipleTypes ts)

/-- The last path segment, `path[len(path)-1]` on the result of
`strings.Split`. -/
def lastName (f : String) : String := (splitDot f).getLastD ""

/-- Function CandidateGraftsFor from `src/unnamed/part_001` lines 79-101: seeds by
the quoted last path segment's name and the quoted type directly; neither
needs to belong to an existing field. -/
def CandidateGraftsFor (g : List Stmt) (full typ : String) :
    Except QErr (List String) :=
  match unquote full with
  | none => .error .badUnquote
  | some f =>
    match TermFor g (quote (lastName f)) with
    | none => .error .pathNotFound
    | some node =>
      match TermFor g typ with
      | none => .error .typeNotFound
      | some typT =>
          .ok (walkMatchingPath ((Query.mk g [node]).In byName) typT
            (splitDot f))

/-- Function PublishedFieldsIn from `src/unnamed/part_001` lines 14-22. -/
def PublishedFieldsIn (g : List Stmt) : Query :=
  match TermFor g (quote "true") with
  | none => Query.mk g []
  | some node => ((Query.mk g [node]).In isPublished).Unique

/-! ## The flatteners -/

/-- A blank-node label: `_:` followed by the digest of namespace ++ path,
the content-addressed node identity of the source (`hash` closures in
`schema.Statements` and `integration.Statements`). -/
def blank (d : String → String) (ns s : String) : String :=
  "_:" ++ d (ns ++ s)

/-- A `multi_fields` record as consumed by the taxonomy-mode flattener
(`schema.MultiField`): declared type, name, flat name. -/
structure SMulti where
  typ : String
  name : String
  flatName : String
deriving DecidableEq, Repr

/-- A taxonomy field-set record (`schema.Field`), restricted to the fields
the flattener reads: declared type, nested field sets keyed by full dotted
path, and alternate-index sub-field records. -/
inductive SField where
  | mk (typ : String) (fields : List (String × SField)) (multis : List SMulti)

/-- Go `m.FlatName[:strings.LastIndex(m.FlatName, ".")]`: everything before
the last dot.  (On a dotless flat name the Go code panics; this model
returns the empty string, a case no claim exercises.) -/
def beforeLastDot (s : String) : String :=
  joinDot (splitDot s).dropLast

/-- The statements emitted for one taxonomy field record (the body of the
`range schema` loop in `schema.Statements` after the recursion, lines 42-65
of `src/unnamed/part_002`): one synthesized group node per intermediate path
segment, the field's own node, and its alternate-index sub-fields. -/
def emitS (d : String → String) (field typ : String) (ms : List SMulti) :
    List Stmt :=
  let path := splitDot field
  ((List.range (path.length - 1)).flatMap fun i =>
    let sub := joinDot (path.take (i + 1))
    let obj := joinDot (path.take (i + 2))
    [⟨blank d "schema" sub, "<is:type>", quote "group"⟩,
     ⟨blank d "schema" sub, "<is:name>", quote (path.getD i "")⟩,
     ⟨blank d "schema" sub, "<is:path>", quote sub⟩,
     ⟨blank d "schema" sub, "<has:child>", blank d "schema" obj⟩])
  ++ [⟨blank d "schema" field, "<is:type>", quote typ⟩,
      ⟨blank d "schema" field, "<is:name>", quote (path.getLastD "")⟩,
      ⟨blank d "schema" field, "<is:path>", quote field⟩]
  ++ ms.flatMap fun m =>
      [⟨blank d "schema" (beforeLastDot m.flatName), "<has:multi>",
          blank d "schema" m.flatName⟩,
       ⟨blank d "schema" m.flatName, "<is:type>", quote m.typ⟩,
       ⟨blank d "schema" m.flatName, "<is:name>", quote m.name⟩,
       ⟨blank d "schema" m.flatName, "<is:path>", quote m.flatName⟩]

/-- Function schema.Statements (`src/unnamed/part_002` lines 28-67): recurse
depth-first into nested field sets with the field key as the new parent,
then, for non-root entries (field keys are full dotted paths), emit the
record's statements. -/
def schemaStmts (d : String → String) (parent : String) :
    List (String × SField) → List Stmt
  | [] => []
  | (field, .mk typ fs ms) :: rest =>
      schemaStmts d field fs
        ++ (if parent = "" then [] else emitS d field typ ms)
        ++ schemaStmts d parent rest
termination_by l => sizeOf l
decreasing_by all_goals simp_wf <;> omega

/-- A `multi_fields` record as consumed by the authored-mode flattener
(`integration.MultiField`): declared type and name. -/
structure IMulti where
  typ : String
  name : String
deriving DecidableEq, Repr

/-- An authored field record (`integration.Field`), restricted to the fields
the flattener reads: single-segment relative name, declared type,
external-origin tag, nested records, alternate-index sub-field records. -/
inductive IField where
  | mk (name typ ext : String) (fields : List IField) (multis : List IMulti)

/-- The external-origin tag of an authored record. -/
def IField.external : IField → String
  | .mk _ _ e _ _ => e

/-- The statements emitted for one authored field record (the body of the
`range schema` loop in `integration.Statements` after the recursion, lines
182-213 of `src/query/grafting.go`): synthesized published groups per
intermediate segment, the field's own published node with optional
external-origin and type statements, and its alternate-index sub-fields.
The `has:multi` subject is the hash of the bare multi name (`hash(m.Name)`),
exactly as in the source. -/
def emitI (d : String → String) (full typ ext : String) (ms : List IMulti) :
    List Stmt :=
  let path := splitDot full
  ((List.range (path.length - 1)).flatMap fun i =>
    let sub := joinDot (path.take (i + 1))
    let obj := joinDot (path.take (i + 2))
    [⟨blank d "package" sub, "<is:published>", quote "true"⟩,
     ⟨blank d "package" sub, "<as:type>", quote "group"⟩,
     ⟨blank d "package" sub, "<is:name>", quote (path.getD i "")⟩,
     ⟨blank d "package" sub, "<is:path>", quote sub⟩,
     ⟨blank d "package" sub, "<has:child>", blank d "package" obj⟩])
  ++ [⟨blank d "package" full, "<is:published>", quote "true"⟩,
      ⟨blank d "package" full, "<is:name>", quote (path.getLastD "")⟩,
      ⟨blank d "package" full, "<is:path>", quote full⟩]
  ++ (if ext = "" then [] else
      [⟨blank d "package" full, "<external:type>", quote ext⟩])
  ++ (if typ = "" then [] else
      [⟨blank d "package" full, "<as:type>", quote typ⟩])
  ++ ms.flatMap fun m =>
      [⟨blank d "package" m.name, "<has:multi>",
          blank d "package" (full ++ "." ++ m.name)⟩,
       ⟨blank d "package" (full ++ "." ++ m.name), "<is:published>",
          quote "true"⟩,
       ⟨blank d "package" (full ++ "." ++ m.name), "<as:type>", quote m.typ⟩,
       ⟨blank d "package" (full ++ "." ++ m.name), "<is:name>", quote m.name⟩,
       ⟨blank d "package" (full ++ "." ++ m.name), "<is:path>",
          quote (full ++ "." ++ m.name)⟩]

/-- Function integration.Statements (`src/query/grafting.go` lines 168-215): each
record's name is prefixed with the parent path, children are flattened
depth-first, then the record's own statements are emitted (including for
root records, unlike taxonomy mode). -/
def intStmts (d : String → String) (parent : String) :
    List IField → List Stmt
  | [] => []
  | (.mk nm typ ext fs ms) :: rest =>
      intStmts d (if parent = "" then nm else parent ++ "." ++ nm) fs
        ++ emitI d (if parent = "" then nm else parent ++ "." ++ nm) typ ext ms
        ++ intStmts d parent rest
termination_by l => sizeOf l
decreasing_by all_goals simp_wf <;> omega

/-- The full dotted name of every record reached by `integration.Statements`
paired with the record itself, in emission order. -/
def recordsI (parent : String) : List IField → List (String × IField)
  | [] => []
  | (.mk nm typ ext fs ms) :: rest =>
      recordsI (if parent = "" then nm else parent ++ "." ++ nm) fs
        ++ [(if parent = "" then nm else parent ++ "." ++ nm,
              IField.mk nm typ ext fs ms)]
        ++ recordsI parent rest
termination_by l => sizeOf l
decreasing_by all_goals simp_wf <;> omega

/-- An injective stand-in digest for concrete graphs (the source uses
lowercase-hex SHA-1; any injective digest separates node identities the
same way). -/
def idD : String → String := fun s => s

/-- A node with a declared type recorded via the taxonomy predicate
`is:type` in the graph. -/
def TypedIn (G : List Stmt) (x : String) : Prop :=
  ∃ t, (⟨x, "<is:type>", t⟩ : Stmt) ∈ G

deriving instance DecidableEq for Except

/-! ## Concrete graphs used by the scenario evaluations -/

/-- The Scenario 1 taxonomy: a field set containing `registry.path` of type
`keyword` (nested field keys are full dotted paths, as in
`ecs_nested.yml`). -/
def schemaDoc1 : List (String × SField) :=
  [("registry", .mk "group" [("registry.path", .mk "keyword" [] [])] [])]

/-- The Scenario 1 authored document: a `registry` group with a `path` leaf
of type `keyword` (authored records carry single-segment relative names). -/
def intDoc1 : List IField :=
  [.mk "registry" "group" "" [.mk "path" "keyword" "" [] []] []]

/-- The Scenario 1 graph: both documents flattened into one statement set. -/
def g1 : List Stmt := schemaStmts idD "" schemaDoc1 ++ intStmts idD "" intDoc1

/-- A taxonomy whose only leaf is `x.path` of type `keyword`: its leaf name
and type match a query for `registry.path:keyword` but its parent does
not. -/
def schemaDoc2 : List (String × SField) :=
  [("x", .mk "group" [("x.path", .mk "keyword" [] [])] [])]

/-- Graph of `schemaDoc2` alone. -/
def g2 : List Stmt := schemaStmts idD "" schemaDoc2

/-- A taxonomy with leaves `b.b` and `b.b.b` (both `keyword`) plus an
authored field `b.b` (`keyword`): the authored field's own path literal
`"b.b"` is also the path of the taxonomy ancestor of the `b.b.b` leaf. -/
def schemaDoc4 : List (String × SField) :=
  [("b", .mk "group"
      [("b.b", .mk "keyword" [] []), ("b.b.b", .mk "keyword" [] [])] [])]

/-- The authored document for the self-exclusion counterexample. -/
def intDoc4 : List IField :=
  [.mk "b" "group" "" [.mk "b" "keyword" "" [] []] []]

/-- Graph joining `schemaDoc4` and `intDoc4`. -/
def g4 : List Stmt := schemaStmts idD "" schemaDoc4 ++ intStmts idD "" intDoc4

/-- A taxonomy with leaves `a.b` (type `keyword`) and `a.c` (type `path`):
the literal `"path"` occurs in the graph only as a type, never as a name,
and the literal `"keyword"` only as a type, never as a path. -/
def schemaDoc7 : List (String × SField) :=
  [("a", .mk "group"
      [("a.b", .mk "keyword" [] []), ("a.c", .mk "path" [] [])] [])]

/-- Graph of `schemaDoc7` alone. -/
def g7 : List Stmt := schemaStmts idD "" schemaDoc7

/-- An authored document with a nested field `a.b` of type `keyword`
carrying one alternate-index sub-field named `text`. -/
def intDoc5 : List IField :=
  [.mk "a" "" "" [.mk "b" "keyword" "" [] [⟨"match_only_text", "text"⟩]] []]

/-- An authored document with one root field `a` of type `keyword`
explicitly tagged as externally defined (`external: ecs`). -/
def intDoc9 : List IField := [.mk "a" "keyword" "ecs" [] []]

/-- A published field node recording two conflicting declared types. -/
def g3 : List Stmt :=
  [⟨"_:n", "<is:path>", quote "a.b"⟩,
   ⟨"_:n", "<is:published>", quote "true"⟩,
   ⟨"_:n", "<as:type>", quote "keyword"⟩,
   ⟨"_:n", "<as:type>", quote "text"⟩]

/-- The subjects of the `is:path` statements whose object is the queried
quoted full path: every node recording that path. -/
def pathNodes (g : List Stmt) (full : String) : List String :=
  (g.filter (fun s => byPath s && s.obj == full)).map (·.sub)

/-- Whether a node is flagged published in the graph. -/
def publishedNode (g : List Stmt) (x : String) : Bool :=
  g.any (fun s => isPublished s && s.sub == x)

/-- The distinct `as:type` values recorded on published nodes carrying the
queried path — the declared types `CandidateGraftsIn` must arbitrate
between, stated directly on the statement set. -/
def declaredTypes (g : List Stmt) (full : String) : List String :=
  ((g.filter (fun s => byUsedType s &&
      (publishedNode g s.sub && (pathNodes g full).contains s.sub))).map
    (·.obj)).dedup

/-! ## Bridging lemmas for the query algebra -/

theorem contains_iff_mem (l : List String) (a : String) :
    l.contains a = true ↔ a ∈ l := by
  simp [List.contains, List.elem_iff]

theorem mem_Out {q : Query} {f : Stmt → Bool} {v : String} :
    v ∈ (q.Out f).terms ↔
      ∃ s ∈ q.g, f s = true ∧ s.sub ∈ q.terms ∧ s.obj = v := by
  simp only [Query.Out, List.mem_map, List.mem_filter, Bool.and_eq_true,
    contains_iff_mem]
  tauto

theorem mem_In {q : Query} {f : Stmt → Bool} {v : String} :
    v ∈ (q.In f).terms ↔
      ∃ s ∈ q.g, f s = true ∧ s.obj ∈ q.terms ∧ s.sub = v := by
  simp only [Query.In, List.mem_map, List.mem_filter, Bool.and_eq_true,
    contains_iff_mem]
  tauto

theorem mem_And {q r : Query} {v : String} :
    v ∈ (q.And r).terms ↔ v ∈ q.terms ∧ v ∈ r.terms := by
  simp [Query.And, List.mem_filter, contains_iff_mem]

theorem mem_Not {q r : Query} {v : String} :
    v ∈ (q.Not r).terms ↔ v ∈ q.terms ∧ v ∉ r.terms := by
  simp [Query.Not, List.mem_filter, contains_iff_mem]

theorem TermFor_some {g : List Stmt} {v w : String}
    (h : TermFor g v = some w) : w = v := by
  unfold TermFor at h
  split at h
  · exact (Option.some.injEq _ _ ▸ h).symm
  · exact absurd h (by simp)

/-- C1: on the Scenario 1 graph (authored `registry.path` of type `keyword`
and taxonomy `registry.path` of type `keyword`), `CandidateGraftsFor`
applied to `registry.path` / `keyword` does NOT return `["registry.path"]`:
the suffix walk moves the current set to the matched parents and collects
their `is:path` literals, so the call returns the quoted path of the matched
parent group, `["\"registry\""]`.  This contradicts the claim (and the
function's own documentation, since the returned node has declared type
`group`, not `keyword`, and shares no path suffix with the query). -/
theorem c1_scenario1_eval :
    CandidateGraftsFor g1 (quote "registry.path") (quote "keyword")
        = .ok [quote "registry"] ∧
    CandidateGraftsFor g1 (quote "registry.path") (quote "keyword")
        ≠ .ok [quote "registry.path"] ∧
    CandidateGraftsFor g1 (quote "registry.path") (quote "keyword")
        ≠ .ok ["registry.path"] := by
  simp only [g1, schemaDoc1, intDoc1, schemaStmts, intStmts]
  decide

/-- C5: in the authored-mode flattener, the `has:multi` statement emitted
for an alternate-index sub-field has as its subject the hash of the bare
multi name (`hash(m.Name)`), not the parent field's node
(`hash(namespace + parent full path)`).  For the record `a.b` with
sub-field `text`, the emitted edge is
`_:hash("package"+"text") has:multi _:hash("package"+"a.b.text")`, and no
`has:multi` statement has the parent node `_:hash("package"+"a.b")` as
subject, although that node exists (it is the subject of the `is:path`
statement for `a.b`). -/
theorem c5_multi_subject_eval :
    ((⟨blank idD "package" "text", "<has:multi>",
        blank idD "package" "a.b.text"⟩ : Stmt) ∈ intStmts idD "" intDoc5) ∧
    ((⟨blank idD "package" "a.b", "<is:path>", quote "a.b"⟩ : Stmt)
        ∈ intStmts idD "" intDoc5) ∧
    (∀ s ∈ intStmts idD "" intDoc5, s.pred = "<has:multi>" →
        s.sub ≠ blank idD "package" "a.b") := by
  simp only [intDoc5, intStmts]
  decide

/-- C2 (counterexample): on a graph whose only leaf is `x.path` of type
`keyword`, querying `registry.path:keyword` gives a non-empty seed level
(the `x.path` node, with path literal `"x.path"`) whose very first parent
step yields zero matches; the claim says the seed level's result must then
be returned, but the call returns the empty list. -/
theorem c2_counterexample :
    CandidateGraftsFor g2 (quote "registry.path") (quote "keyword")
        = .ok [] ∧
    (typeFiltered ((Query.mk g2 [quote "path"]).In byName)
        (quote "keyword")).terms ≠ [] ∧
    (((typeFiltered ((Query.mk g2 [quote "path"]).In byName)
        (quote "keyword")).Out byPath)).Unique.Result = [quote "x.path"] := by
  simp only [g2, schemaDoc2, schemaStmts]
  decide

/-- C2 (amended): in the suffix walk, a step yielding zero matches stops the
walk and returns the previously recorded result, and never erases a
previous non-empty result; but the seed level's paths are never recorded,
so when the very first parent step (at `i = n-2`) yields zero matches the
returned candidate list is empty. -/
theorem c2_suffix_stop :
    (∀ (q : Query) (p : String) (rest final : List String),
        stepR q p = [] → walkLoop q (p :: rest) final = final) ∧
    (∀ (q : Query) (names final : List String),
        final ≠ [] → walkLoop q names final ≠ []) ∧
    (∀ (q : Query) (typ : String) (path : List String) (p : String)
        (rest : List String),
        (path.take (path.length - 1)).reverse = p :: rest →
        stepR (typeFiltered q typ) p = [] →
        walkMatchingPath q typ path = []) := by
  refine ⟨?_, ?_, ?_⟩
  · intro q p rest final h
    simp [walkLoop, h]
  · intro q names final h
    induction names generalizing q final with
    | nil => simpa [walkLoop] using h
    | cons p rest ih =>
        rw [walkLoop]
        by_cases hr : stepR q p = []
        · simpa [hr] using h
        · simpa [hr] using ih (stepQ q p) (stepR q p) hr
  · intro q typ path p rest hnames h
    rw [walkMatchingPath, hnames]
    simp [walkLoop, h]

theorem In_terms_nil {q : Query} {f : Stmt → Bool} (h : q.terms = []) :
    (q.In f).terms = [] := by
  rw [List.eq_nil_iff_forall_not_mem]
  intro v hv
  rcases mem_In.1 hv with ⟨s, _, _, hobj, _⟩
  rw [h] at hobj
  exact absurd hobj (List.not_mem_nil _)

theorem Out_terms_nil {q : Query} {f : Stmt → Bool} (h : q.terms = []) :
    (q.Out f).terms = [] := by
  rw [List.eq_nil_iff_forall_not_mem]
  intro v hv
  rcases mem_Out.1 hv with ⟨s, _, _, hsub, _⟩
  rw [h] at hsub
  exact absurd hsub (List.not_mem_nil _)

theorem And_terms_nil_left {q r : Query} (h : q.terms = []) :
    (q.And r).terms = [] := by
  simp [Query.And, h]

theorem stepQ_terms_nil {q : Query} {p : String} (h : q.terms = []) :
    (stepQ q p).terms = [] := by
  rw [List.eq_nil_iff_forall_not_mem]
  intro v hv
  rcases mem_And.1 hv with ⟨_, hc⟩
  rw [In_terms_nil h] at hc
  exact absurd hc (List.not_mem_nil _)

theorem stepR_nil {q : Query} {p : String} (h : q.terms = []) :
    stepR q p = [] := by
  unfold stepR
  rw [Query.Result, Query.Unique, Out_terms_nil (stepQ_terms_nil h)]
  rfl

theorem walkLoop_terms_nil {q : Query} (h : q.terms = [])
    (names final : List String) : walkLoop q names final = final := by
  cases names with
  | nil => rfl
  | cons p rest => rw [walkLoop]; simp [stepR_nil h]

/-- C2 (witness): the three parts of the suffix-stop theorem instantiated
at concrete inputs — an empty-step loop returns the prior result, a
non-empty prior result is never erased, and the `x.path` graph's query for
`registry.path:keyword` returns the empty list because its first parent
step is empty. -/
theorem c2_suffix_stop_witness :
    walkLoop (Query.mk [] []) ["p"] [quote "f"] = [quote "f"] ∧
    walkLoop (Query.mk [] []) [] [quote "f"] ≠ [] ∧
    walkMatchingPath ((Query.mk g2 [quote "path"]).In byName)
      (quote "keyword") ["registry", "path"] = [] := by
  refine ⟨c2_suffix_stop.1 (Query.mk [] []) "p" [] [quote "f"] (by decide),
    c2_suffix_stop.2.1 (Query.mk [] []) [] [quote "f"] (by decide),
    c2_suffix_stop.2.2 ((Query.mk g2 [quote "path"]).In byName)
      (quote "keyword") ["registry", "path"] "registry" [] (by decide) ?_⟩
  simp only [g2, schemaDoc2, schemaStmts]
  decide

/-- C7 (counterexample): on a graph where the literal `"path"` occurs only
as a declared type (leaf `a.c` has type `path`) and `"keyword"` occurs only
as a declared type, `CandidateGraftsFor` for `z.path:keyword` finds the
term `"path"` and returns `[]` with no error although no node is named
`path`, and `CandidateGraftsIn` for the never-flattened path `keyword`
finds the term and returns the error `no type` instead of `not found`. -/
theorem c7_counterexample :
    CandidateGraftsFor g7 (quote "z.path") (quote "keyword") = .ok [] ∧
    (∀ s ∈ g7, s.pred = "<is:name>" → s.obj ≠ quote "path") ∧
    CandidateGraftsIn g7 (quote "keyword") = .error .noType ∧
    (∀ s ∈ g7, s.pred = "<is:path>" → s.obj ≠ quote "keyword") := by
  simp only [g7, schemaDoc7, schemaStmts]
  decide

/-- C7 (amended): `CandidateGraftsFor` returns its not-found error (`path
not found`) exactly when the quoted last segment of the queried path occurs
nowhere in the graph as a term value, and `CandidateGraftsIn` returns `not
found` exactly when the quoted full path occurs nowhere as a term value; a
term value occurs nowhere exactly when no statement carries it in any
position. -/
theorem c7_not_found_policy (g : List Stmt) (full typ f : String)
    (h : unquote full = some f) :
    (CandidateGraftsFor g full typ = .error .pathNotFound ↔
      TermFor g (quote (lastName f)) = none) ∧
    (CandidateGraftsIn g full = .error .notFound ↔ TermFor g full = none) ∧
    (∀ v, TermFor g v = none ↔
      ∀ s ∈ g, s.sub ≠ v ∧ s.pred ≠ v ∧ s.obj ≠ v) := by
  refine ⟨?_, ?_, ?_⟩
  · cases hTF : TermFor g (quote (lastName f)) with
    | none => simp [CandidateGraftsFor, h, hTF]
    | some node =>
        cases hT : TermFor g typ with
        | none => simp [CandidateGraftsFor, h, hTF, hT]
        | some typT => simp [CandidateGraftsFor, h, hTF, hT]
  · cases hTF : TermFor g full with
    | none => simp [CandidateGraftsIn, hTF]
    | some node =>
        have hnode := TermFor_some hTF
        rw [hnode] at hTF
        rcases htyps : graftTyps g full with _ | ⟨t, _ | ⟨t2, ts⟩⟩ <;>
          simp [CandidateGraftsIn, hTF, h, htyps]
  · intro v
    unfold TermFor
    by_cases hany :
        (g.any fun s => s.sub == v || s.pred == v || s.obj == v) = true
    · rw [if_pos hany]
      refine ⟨fun hcontra => absurd hcontra (by simp), fun hall => ?_⟩
      exfalso
      rcases List.any_eq_true.1 hany with ⟨s, hs, hv⟩
      rcases hall s hs with ⟨h1, h2, h3⟩
      simp only [Bool.or_eq_true, beq_iff_eq] at hv
      rcases hv with (hv | hv) | hv
      · exact h1 hv
      · exact h2 hv
      · exact h3 hv
    · rw [if_neg hany]
      refine ⟨fun _ s hs => ?_, fun _ => rfl⟩
      refine ⟨?_, ?_, ?_⟩ <;> intro hEq <;>
        exact hany (List.any_eq_true.2 ⟨s, hs, by simp [hEq]⟩)

/-- C7 (witness): a path whose quoted last segment occurs nowhere in the
Scenario 3 / C7 graph yields the `path not found` error, and a full path
occurring nowhere yields `not found`, via the amended policy theorem. -/
theorem c7_not_found_policy_witness :
    CandidateGraftsFor g7 (quote "zz.qq") (quote "w")
        = .error .pathNotFound ∧
    CandidateGraftsIn g7 (quote "zz.qq") = .error .notFound := by
  have h := c7_not_found_policy g7 (quote "zz.qq") (quote "w") "zz.qq"
    (by decide)
  exact ⟨h.1.mpr (by simp only [g7, schemaDoc7, schemaStmts]; decide),
    h.2.1.mpr (by simp only [g7, schemaDoc7, schemaStmts]; decide)⟩

/-- C8 (counterexample): on the Scenario 1 graph, querying
`registry.path:text` returns the error `type not found`, not the empty
list without error that the claim requires (the literal `"text"` occurs
nowhere in that graph, so the type anchor lookup fails). -/
theorem c8_counterexample :
    CandidateGraftsFor g1 (quote "registry.path") (quote "text")
        = .error .typeNotFound ∧
    CandidateGraftsFor g1 (quote "registry.path") (quote "text")
        ≠ .ok [] := by
  simp only [g1, schemaDoc1, intDoc1, schemaStmts, intStmts]
  decide

/-- C8 (amended): when the quoted last segment exists in the graph,
`CandidateGraftsFor` returns the error `type not found` if the quoted
required type occurs nowhere in the graph as a term value; if the type
term exists but no node carries both the queried last-segment name and
that declared type (`is:type`), it returns the empty list and no error. -/
theorem typeFiltered_seed_nil {g : List Stmt} {nm typ : String}
    (hno : ∀ s ∈ g, s.pred = "<is:name>" → s.obj = quote nm →
      (⟨s.sub, "<is:type>", typ⟩ : Stmt) ∉ g) :
    (typeFiltered ((Query.mk g [quote nm]).In byName) typ).terms = [] := by
  have hOut :
      ((((Query.mk g [quote nm]).In byName)).Out (matchTypeP typ)).terms
        = [] := by
    rw [List.eq_nil_iff_forall_not_mem]
    intro v hv
    rcases mem_Out.1 hv with ⟨s, hsg, hmT, hsub, _⟩
    simp only [matchTypeP, Bool.and_eq_true, beq_iff_eq] at hmT
    rcases hmT with ⟨hpred, hobj⟩
    rcases mem_In.1 hsub with ⟨s', hs'g, hbn, hs'obj, hs'sub⟩
    simp only [byName, beq_iff_eq] at hbn
    have hs'o : s'.obj = quote nm := by simpa using hs'obj
    have hnot := hno s' hs'g hbn hs'o
    have hseq : s = ⟨s'.sub, "<is:type>", typ⟩ := by
      cases s
      simp only [Stmt.mk.injEq]
      exact ⟨hs'sub ▸ rfl, hpred, hobj⟩
    exact hnot (hseq ▸ hsg)
  unfold typeFiltered
  exact And_terms_nil_left (In_terms_nil hOut)

theorem c8_type_policy (g : List Stmt) (full typ f : String)
    (h : unquote full = some f)
    (hname : TermFor g (quote (lastName f)) ≠ none) :
    (TermFor g typ = none →
      CandidateGraftsFor g full typ = .error .typeNotFound) ∧
    (∀ t, TermFor g typ = some t →
      (∀ s ∈ g, s.pred = "<is:name>" → s.obj = quote (lastName f) →
        (⟨s.sub, "<is:type>", typ⟩ : Stmt) ∉ g) →
      CandidateGraftsFor g full typ = .ok []) := by
  constructor
  · intro hT
    cases hTF : TermFor g (quote (lastName f)) with
    | none => exact absurd hTF hname
    | some node => simp [CandidateGraftsFor, h, hTF, hT]
  · intro t hT hno
    cases hTF : TermFor g (quote (lastName f)) with
    | none => exact absurd hTF hname
    | some node =>
        have hnode := TermFor_some hTF
        subst hnode
        have ht := TermFor_some hT
        subst ht
        simp only [CandidateGraftsFor, h, hTF, hT]
        unfold walkMatchingPath
        rw [walkLoop_terms_nil (typeFiltered_seed_nil hno)]

/-- C8 (witness): on the C7 graph (leaves `a.b:keyword`, `a.c:path`), the
type literal `"path"` exists but no node is named `b` with declared type
`path`, so `CandidateGraftsFor a.b:path` returns the empty list with no
error; with the absent type `zzz` it returns `type not found`. -/
theorem c8_type_policy_witness :
    CandidateGraftsFor g7 (quote "a.b") (quote "path") = .ok [] ∧
    CandidateGraftsFor g7 (quote "a.b") (quote "zzz")
        = .error .typeNotFound := by
  constructor
  · exact (c8_type_policy g7 (quote "a.b") (quote "path") "a.b" (by decide)
      (by simp only [g7, schemaDoc7, schemaStmts]; decide)).2 (quote "path")
      (by simp only [g7, schemaDoc7, schemaStmts]; decide)
      (by simp only [g7, schemaDoc7, schemaStmts]; decide)
  · exact (c8_type_policy g7 (quote "a.b") (quote "zzz") "a.b" (by decide)
      (by simp only [g7, schemaDoc7, schemaStmts]; decide)).1
      (by simp only [g7, schemaDoc7, schemaStmts]; decide)

/-- C4 (counterexample): on the graph with taxonomy leaves `b.b` and
`b.b.b` plus an authored field `b.b`, `CandidateGraftsIn` for `b.b`
returns a list containing the queried field's own path literal `"b.b"`
(collected from the taxonomy ancestor of `b.b.b`, which carries an
identical path literal under the other namespace). -/
theorem c4_counterexample :
    CandidateGraftsIn g4 (quote "b.b") = .ok [quote "b.b"] := by
  simp only [g4, schemaDoc4, intDoc4, schemaStmts, intStmts]
  decide

/-- C4 (amended): `CandidateGraftsIn` excludes every node recording the
queried path from the candidate seed pool — no term of the seed is the
subject of an `is:path` statement whose object is the queried path — and
any successful result is exactly the suffix walk over that self-excluded
seed; but the returned path strings may still include the queried path
when a different node (for instance a taxonomy ancestor) carries an
identical path literal. -/
theorem c4_self_exclusion :
    (∀ (g : List Stmt) (full x : String), x ∈ (graftSeed g full).terms →
      ∀ s ∈ g, s.pred = "<is:path>" → s.obj = full → s.sub ≠ x) ∧
    (∀ (g : List Stmt) (full : String) (ps : List String),
      CandidateGraftsIn g full = .ok ps →
      ∃ t f, unquote full = some f ∧
        ps = walkMatchingPath (graftSeed g full) t (splitDot f)) := by
  constructor
  · intro g full x hx s hs hpred hobj hsub
    rcases mem_Not.1 hx with ⟨_, hnot⟩
    refine hnot (mem_In.2 ⟨s, hs, ?_, ?_, hsub⟩)
    · simp [byPath, hpred]
    · simp [hobj]
  · intro g full ps hok
    unfold CandidateGraftsIn at hok
    cases hTF : TermFor g full with
    | none => rw [hTF] at hok; exact absurd hok (by simp)
    | some node =>
        have hnode := TermFor_some hTF
        rw [hnode] at hTF
        simp only [hTF] at hok
        cases hU : unquote full with
        | none => simp [hU] at hok
        | some f =>
            simp only [hU] at hok
            rcases htyps : graftTyps g full with _ | ⟨t, _ | ⟨t2, ts⟩⟩ <;>
              simp only [htyps] at hok
            · exact absurd hok (by simp)
            · exact ⟨t, f, rfl, by simpa using hok.symm⟩
            · exact absurd hok (by simp)

/-- C4 (witness): on the counterexample graph, the taxonomy group node
`_:schemab` is in the seed pool for the query `b.b`, hence carries no
`is:path` statement with object `"b.b"`; and the successful result for
`b.b` is exactly the walk over the self-excluded seed. -/
theorem c4_self_exclusion_witness :
    (∀ s ∈ g4, s.pred = "<is:path>" → s.obj = quote "b.b" →
      s.sub ≠ "_:schemab") ∧
    (∃ t f, unquote (quote "b.b") = some f ∧
      [quote "b.b"]
        = walkMatchingPath (graftSeed g4 (quote "b.b")) t (splitDot f)) := by
  constructor
  · exact c4_self_exclusion.1 g4 (quote "b.b") "_:schemab"
      (by simp only [g4, schemaDoc4, intDoc4, schemaStmts, intStmts]; decide)
  · exact c4_self_exclusion.2 g4 (quote "b.b") [quote "b.b"]
      (by simp only [g4, schemaDoc4, intDoc4, schemaStmts, intStmts]; decide)

theorem graftQ_terms (g : List Stmt) (full : String) :
    (graftQ g full).terms = pathNodes g full := by
  unfold graftQ pathNodes Query.In
  dsimp only
  congr 1
  apply List.filter_congr
  intro s _
  cases h : s.obj == full <;> simp [List.contains, List.elem, h]

theorem mem_graftPublished {g : List Stmt} {full x : String} :
    x ∈ ((((graftQ g full).Out isPublished).In isPublished).And
        (graftQ g full)).terms ↔
      publishedNode g x = true ∧ x ∈ pathNodes g full := by
  rw [mem_And, graftQ_terms]
  constructor
  · rintro ⟨hB, hq⟩
    refine ⟨?_, hq⟩
    rcases mem_In.1 hB with ⟨s, hs, hp, _, hsub⟩
    exact List.any_eq_true.2 ⟨s, hs, by simp [hp, hsub]⟩
  · rintro ⟨hpub, hq⟩
    rcases List.any_eq_true.1 hpub with ⟨s0, hs0, h0⟩
    simp only [Bool.and_eq_true, beq_iff_eq] at h0
    rcases h0 with ⟨hp0, hsub0⟩
    refine ⟨mem_In.2 ⟨s0, hs0, hp0, ?_, hsub0⟩, hq⟩
    refine mem_Out.2 ⟨s0, hs0, hp0, ?_, rfl⟩
    rw [graftQ_terms, hsub0]
    exact hq

theorem graftTyps_eq (g : List Stmt) (full : String) :
    graftTyps g full = declaredTypes g full := by
  unfold graftTyps declaredTypes
  simp only [Query.Unique, Query.Result, Query.Out]
  congr 1
  congr 1
  apply List.filter_congr
  intro s _
  congr 1
  rw [Bool.eq_iff_iff]
  rw [contains_iff_mem]
  rw [Bool.and_eq_true]
  rw [contains_iff_mem]
  exact mem_graftPublished

/-- C3: for an existing quoted full path, `CandidateGraftsIn` arbitrates
the declared types recorded via `as:type` on published nodes carrying that
path: zero recorded types give the error `no type`, a single recorded type
is the one the suffix walk proceeds with, and two or more recorded types
give the error `found multiple types` naming exactly the distinct
conflicting values — one of several types is never silently picked. -/
theorem c3_type_policy (g : List Stmt) (full f : String)
    (h1 : TermFor g full = some full) (h2 : unquote full = some f) :
    (declaredTypes g full = [] →
      CandidateGraftsIn g full = .error .noType) ∧
    (∀ t, declaredTypes g full = [t] →
      CandidateGraftsIn g full
        = .ok (walkMatchingPath (graftSeed g full) t (splitDot f))) ∧
    (∀ t1 t2 ts, declaredTypes g full = t1 :: t2 :: ts →
      CandidateGraftsIn g full
        = .error (.multipleTypes (t1 :: t2 :: ts))) := by
  refine ⟨?_, ?_, ?_⟩
  · intro hd
    simp [CandidateGraftsIn, h1, h2, graftTyps_eq, hd]
  · intro t hd
    simp [CandidateGraftsIn, h1, h2, graftTyps_eq, hd]
  · intro t1 t2 ts hd
    simp [CandidateGraftsIn, h1, h2, graftTyps_eq, hd]

/-- C3 (witness): a published node with path `a.b` recording the two
declared types `keyword` and `text` makes `CandidateGraftsIn` return
`found multiple types` naming both. -/
theorem c3_type_policy_witness :
    declaredTypes g3 (quote "a.b") = [quote "keyword", quote "text"] ∧
    CandidateGraftsIn g3 (quote "a.b")
      = .error (.multipleTypes [quote "keyword", quote "text"]) := by
  refine ⟨by decide, ?_⟩
  exact (c3_type_policy g3 (quote "a.b") "a.b" (by decide) (by decide)).2.2
    (quote "keyword") (quote "text") [] (by decide)

theorem string_data_inj {a b : String} (h : a.data = b.data) : a = b := by
  cases a
  cases b
  exact congrArg String.mk (by simpa using h)

theorem string_append_cancel_left {a b c : String} (h : a ++ b = a ++ c) :
    b = c := by
  have h2 := congrArg String.data h
  rw [String.data_append, String.data_append] at h2
  exact string_data_inj (List.append_cancel_left h2)

theorem string_append_cancel_right {a b c : String} (h : a ++ c = b ++ c) :
    a = b := by
  have h2 := congrArg String.data h
  rw [String.data_append, String.data_append] at h2
  exact string_data_inj (List.append_cancel_right h2)

theorem quote_inj {p q : String} (h : quote p = quote q) : p = q := by
  unfold quote at h
  exact string_append_cancel_left (string_append_cancel_right h)

theorem schema_package_ne {d : String → String}
    (hd : Function.Injective d) (p q : String) :
    blank d "schema" p ≠ blank d "package" q := by
  intro h
  unfold blank at h
  have h2 := hd (string_append_cancel_left h)
  have h3 := congrArg String.data h2
  rw [String.data_append, String.data_append] at h3
  rw [show ("schema" : String).data = ['s', 'c', 'h', 'e', 'm', 'a'] from rfl,
    show ("package" : String).data
      = ['p', 'a', 'c', 'k', 'a', 'g', 'e'] from rfl] at h3
  simp at h3

theorem emitS_path {d : String → String} {field typ : String}
    {ms : List SMulti} {s : Stmt} (hs : s ∈ emitS d field typ ms)
    (hp : s.pred = "<is:path>") :
    ∃ p, s.sub = blank d "schema" p ∧ s.obj = quote p := by
  simp only [emitS, List.mem_append, List.mem_flatMap, List.mem_range,
    List.mem_cons, List.not_mem_nil, or_false] at hs
  rcases hs with (⟨i, hi, (rfl | rfl | rfl | rfl)⟩ | (rfl | rfl | rfl)) |
    ⟨m, hm, (rfl | rfl | rfl | rfl)⟩
  · simp at hp
  · simp at hp
  · exact ⟨joinDot ((splitDot field).take (i + 1)), rfl, rfl⟩
  · simp at hp
  · simp at hp
  · simp at hp
  · exact ⟨field, rfl, rfl⟩
  · simp at hp
  · simp at hp
  · simp at hp
  · exact ⟨m.flatName, rfl, rfl⟩

theorem emitI_path {d : String → String} {full typ ext : String}
    {ms : List IMulti} {s : Stmt} (hs : s ∈ emitI d full typ ext ms)
    (hp : s.pred = "<is:path>") :
    ∃ p, s.sub = blank d "package" p ∧ s.obj = quote p := by
  simp only [emitI, List.mem_append, List.mem_flatMap, List.mem_range,
    List.mem_cons, List.not_mem_nil, or_false] at hs
  rcases hs with ((((⟨i, hi, (rfl | rfl | rfl | rfl | rfl)⟩ |
      (rfl | rfl | rfl)) | hext) | htyp)) | ⟨m, hm, (rfl | rfl | rfl | rfl | rfl)⟩
  · simp at hp
  · simp at hp
  · simp at hp
  · exact ⟨joinDot ((splitDot full).take (i + 1)), rfl, rfl⟩
  · simp at hp
  · simp at hp
  · simp at hp
  · exact ⟨full, rfl, rfl⟩
  · rcases Decidable.em (ext = "") with he | he
    · rw [if_pos he] at hext
      exact absurd hext (List.not_mem_nil _)
    · rw [if_neg he] at hext
      rcases List.mem_singleton.1 hext with rfl
      simp at hp
  · rcases Decidable.em (typ = "") with he | he
    · rw [if_pos he] at htyp
      exact absurd htyp (List.not_mem_nil _)
    · rw [if_neg he] at htyp
      rcases List.mem_singleton.1 htyp with rfl
      simp at hp
  · simp at hp
  · simp at hp
  · simp at hp
  · simp at hp
  · exact ⟨full ++ "." ++ m.name, rfl, rfl⟩

theorem schemaStmts_path (d : String → String) (parent : String)
    (l : List (String × SField)) :
    ∀ s ∈ schemaStmts d parent l, s.pred = "<is:path>" →
      ∃ p, s.sub = blank d "schema" p ∧ s.obj = quote p := by
  induction parent, l using schemaStmts.induct d with
  | case1 parent => simp [schemaStmts]
  | case2 parent field typ fs ms rest ih1 ih2 =>
      intro s hs hp
      rw [schemaStmts] at hs
      rcases List.mem_append.1 hs with h | h
      · rcases List.mem_append.1 h with h | h
        · exact ih1 s h hp
        · rcases Decidable.em (parent = "") with he | he
          · rw [if_pos he] at h
            exact absurd h (List.not_mem_nil _)
          · rw [if_neg he] at h
            exact emitS_path h hp
      · exact ih2 s h hp

theorem intStmts_path (d : String → String) (parent : String)
    (l : List IField) :
    ∀ s ∈ intStmts d parent l, s.pred = "<is:path>" →
      ∃ p, s.sub = blank d "package" p ∧ s.obj = quote p := by
  induction parent, l using intStmts.induct d with
  | case1 parent => simp [intStmts]
  | case2 parent nm typ ext fs ms rest ih1 ih2 =>
      intro s hs hp
      rw [intStmts] at hs
      rcases List.mem_append.1 hs with h | h
      · rcases List.mem_append.1 h with h | h
        · exact ih1 s h hp
        · exact emitI_path h hp
      · exact ih2 s h hp

/-- C6: in both flattening modes, every emitted `is:path` statement pairs a
node's full dotted path (its quoted object) with a subject label that is
exactly the digest of the namespace string (`schema` for taxonomy mode,
`package` for authored mode) concatenated with that path, prefixed `_:`;
consequently flattening is a pure function of its input, and the same
(namespace, path) pair arising in two different documents yields the
identical subject label. -/
theorem c6_subject_hash (d : String → String) :
    (∀ (parent : String) (l : List (String × SField)),
      ∀ s ∈ schemaStmts d parent l, s.pred = "<is:path>" →
        ∃ p, s.sub = blank d "schema" p ∧ s.obj = quote p) ∧
    (∀ (parent : String) (l : List IField),
      ∀ s ∈ intStmts d parent l, s.pred = "<is:path>" →
        ∃ p, s.sub = blank d "package" p ∧ s.obj = quote p) ∧
    (∀ (parent1 : String) (l1 : List (String × SField)) (parent2 : String)
        (l2 : List (String × SField)) (s1 s2 : Stmt),
      s1 ∈ schemaStmts d parent1 l1 → s2 ∈ schemaStmts d parent2 l2 →
      s1.pred = "<is:path>" → s2.pred = "<is:path>" →
      s1.obj = s2.obj → s1.sub = s2.sub) ∧
    (∀ (parent1 : String) (l1 : List IField) (parent2 : String)
        (l2 : List IField) (s1 s2 : Stmt),
      s1 ∈ intStmts d parent1 l1 → s2 ∈ intStmts d parent2 l2 →
      s1.pred = "<is:path>" → s2.pred = "<is:path>" →
      s1.obj = s2.obj → s1.sub = s2.sub) := by
  refine ⟨schemaStmts_path d, intStmts_path d, ?_, ?_⟩
  · intro p1 l1 p2 l2 s1 s2 h1 h2 hp1 hp2 hobj
    rcases schemaStmts_path d p1 l1 s1 h1 hp1 with ⟨q1, hsub1, hobj1⟩
    rcases schemaStmts_path d p2 l2 s2 h2 hp2 with ⟨q2, hsub2, hobj2⟩
    have hq : q1 = q2 := quote_inj (by rw [← hobj1, ← hobj2, hobj])
    rw [hsub1, hsub2, hq]
  · intro p1 l1 p2 l2 s1 s2 h1 h2 hp1 hp2 hobj
    rcases intStmts_path d p1 l1 s1 h1 hp1 with ⟨q1, hsub1, hobj1⟩
    rcases intStmts_path d p2 l2 s2 h2 hp2 with ⟨q2, hsub2, hobj2⟩
    have hq : q1 = q2 := quote_inj (by rw [← hobj1, ← hobj2, hobj])
    rw [hsub1, hsub2, hq]

/-- C6 (witness): the Scenario 1 taxonomy's leaf `is:path` statement
carries subject `_:` ++ digest of `schema` ++ `registry.path`, and the
statement with the same path literal in a second flattening of the same
taxonomy (trivially, the same document) has the identical subject. -/
theorem c6_subject_hash_witness :
    ∃ p, "_:schemaregistry.path" = blank idD "schema" p ∧
      quote "registry.path" = quote p := by
  exact (c6_subject_hash idD).1 "" schemaDoc1
    ⟨"_:schemaregistry.path", "<is:path>", quote "registry.path"⟩
    (by simp only [schemaDoc1, schemaStmts]; decide) rfl

theorem emitI_pub {d : String → String} {full typ ext : String}
    {ms : List IMulti} {s : Stmt} (hs : s ∈ emitI d full typ ext ms)
    (hp : s.pred = "<is:path>") :
    (⟨s.sub, "<is:published>", quote "true"⟩ : Stmt)
      ∈ emitI d full typ ext ms := by
  simp only [emitI, List.mem_append, List.mem_flatMap, List.mem_range,
    List.mem_cons, List.not_mem_nil, or_false] at hs ⊢
  rcases hs with ((((⟨i, hi, (rfl | rfl | rfl | rfl | rfl)⟩ |
      (rfl | rfl | rfl)) | hext) | htyp)) |
      ⟨m, hm, (rfl | rfl | rfl | rfl | rfl)⟩
  · simp at hp
  · simp at hp
  · simp at hp
  · exact Or.inl (Or.inl (Or.inl (Or.inl ⟨i, hi, Or.inl rfl⟩)))
  · simp at hp
  · simp at hp
  · simp at hp
  · exact Or.inl (Or.inl (Or.inl (Or.inr (Or.inl rfl))))
  · rcases Decidable.em (ext = "") with he | he
    · rw [if_pos he] at hext
      exact absurd hext (List.not_mem_nil _)
    · rw [if_neg he] at hext
      rcases List.mem_singleton.1 hext with rfl
      simp at hp
  · rcases Decidable.em (typ = "") with he | he
    · rw [if_pos he] at htyp
      exact absurd htyp (List.not_mem_nil _)
    · rw [if_neg he] at htyp
      rcases List.mem_singleton.1 htyp with rfl
      simp at hp
  · simp at hp
  · simp at hp
  · simp at hp
  · simp at hp
  · exact Or.inr ⟨m, hm, Or.inr (Or.inl rfl)⟩

theorem emitI_ext_emit {d : String → String} {full typ ext : String}
    {ms : List IMulti} (he : ext ≠ "") :
    (⟨blank d "package" full, "<external:type>", quote ext⟩ : Stmt)
      ∈ emitI d full typ ext ms := by
  simp only [emitI, List.mem_append, List.mem_flatMap, List.mem_range,
    List.mem_cons, List.not_mem_nil, or_false]
  refine Or.inl (Or.inl (Or.inr ?_))
  rw [if_neg he]
  exact List.mem_singleton.2 rfl

theorem emitI_ext_src {d : String → String} {full typ ext : String}
    {ms : List IMulti} {s : Stmt} (hs : s ∈ emitI d full typ ext ms)
    (hp : s.pred = "<external:type>") :
    ext ≠ "" ∧ s.sub = blank d "package" full ∧ s.obj = quote ext := by
  simp only [emitI, List.mem_append, List.mem_flatMap, List.mem_range,
    List.mem_cons, List.not_mem_nil, or_false] at hs
  rcases hs with ((((⟨i, hi, (rfl | rfl | rfl | rfl | rfl)⟩ |
      (rfl | rfl | rfl)) | hext) | htyp)) |
      ⟨m, hm, (rfl | rfl | rfl | rfl | rfl)⟩
  · simp at hp
  · simp at hp
  · simp at hp
  · simp at hp
  · simp at hp
  · simp at hp
  · simp at hp
  · simp at hp
  · rcases Decidable.em (ext = "") with he | he
    · rw [if_pos he] at hext
      exact absurd hext (List.not_mem_nil _)
    · rw [if_neg he] at hext
      rcases List.mem_singleton.1 hext with rfl
      exact ⟨he, rfl, rfl⟩
  · rcases Decidable.em (typ = "") with he | he
    · rw [if_pos he] at htyp
      exact absurd htyp (List.not_mem_nil _)
    · rw [if_neg he] at htyp
      rcases List.mem_singleton.1 htyp with rfl
      simp at hp
  · simp at hp
  · simp at hp
  · simp at hp
  · simp at hp
  · simp at hp

theorem intStmts_pub (d : String → String) (parent : String)
    (l : List IField) :
    ∀ s ∈ intStmts d parent l, s.pred = "<is:path>" →
      (⟨s.sub, "<is:published>", quote "true"⟩ : Stmt)
        ∈ intStmts d parent l := by
  induction parent, l using intStmts.induct d with
  | case1 parent => simp [intStmts]
  | case2 parent nm typ ext fs ms rest ih1 ih2 =>
      intro s hs hp
      rw [intStmts] at hs ⊢
      rcases List.mem_append.1 hs with h | h
      · rcases List.mem_append.1 h with h | h
        · exact List.mem_append.2 (Or.inl (List.mem_append.2
            (Or.inl (ih1 s h hp))))
        · exact List.mem_append.2 (Or.inl (List.mem_append.2
            (Or.inr (emitI_pub h hp))))
      · exact List.mem_append.2 (Or.inr (ih2 s h hp))

theorem recordsI_ext_emit (d : String → String) (parent : String)
    (l : List IField) :
    ∀ nm f, (nm, f) ∈ recordsI parent l → f.external ≠ "" →
      (⟨blank d "package" nm, "<external:type>", quote f.external⟩ : Stmt)
        ∈ intStmts d parent l := by
  induction parent, l using recordsI.induct with
  | case1 parent => simp [recordsI]
  | case2 parent nm typ ext fs ms rest ih1 ih2 =>
      intro nm' f' hmem hext
      rw [recordsI] at hmem
      rw [intStmts]
      rcases List.mem_append.1 hmem with h | h
      · rcases List.mem_append.1 h with h | h
        · exact List.mem_append.2 (Or.inl (List.mem_append.2
            (Or.inl (ih1 nm' f' h hext))))
        · rcases List.mem_singleton.1 h with heq
          rcases Prod.mk.injEq .. ▸ heq with ⟨rfl, rfl⟩
          exact List.mem_append.2 (Or.inl (List.mem_append.2
            (Or.inr (emitI_ext_emit hext))))
      · exact List.mem_append.2 (Or.inr (ih2 nm' f' h hext))

theorem intStmts_ext_src (d : String → String) (parent : String)
    (l : List IField) :
    ∀ s ∈ intStmts d parent l, s.pred = "<external:type>" →
      ∃ nm f, (nm, f) ∈ recordsI parent l ∧ f.external ≠ "" ∧
        s.sub = blank d "package" nm ∧ s.obj = quote f.external := by
  induction parent, l using intStmts.induct d with
  | case1 parent => simp [intStmts]
  | case2 parent nm typ ext fs ms rest ih1 ih2 =>
      intro s hs hp
      rw [intStmts] at hs
      rw [recordsI]
      rcases List.mem_append.1 hs with h | h
      · rcases List.mem_append.1 h with h | h
        · rcases ih1 s h hp with ⟨nm', f', hmem, hext, hsub, hobj⟩
          exact ⟨nm', f', List.mem_append.2 (Or.inl (List.mem_append.2
            (Or.inl hmem))), hext, hsub, hobj⟩
        · rcases emitI_ext_src h hp with ⟨hext, hsub, hobj⟩
          refine ⟨if parent = "" then nm else parent ++ "." ++ nm,
            .mk nm typ ext fs ms,
            List.mem_append.2 (Or.inl (List.mem_append.2
              (Or.inr (List.mem_singleton.2 rfl)))), hext, hsub, hobj⟩
      · rcases ih2 s h hp with ⟨nm', f', hmem, hext, hsub, hobj⟩
        exact ⟨nm', f', List.mem_append.2 (Or.inr hmem), hext, hsub, hobj⟩

/-- C9: in the authored-mode flattener, every node identified by an
`is:path` statement (synthesized group, leaf, or alternate-index sub-field)
also carries an `is:published` `"true"` statement; and an `external:type`
statement is emitted for a record's node exactly when the record's external
tag is non-empty — every record with a non-empty tag produces one, and
every emitted `external:type` statement names some record's node and its
non-empty tag. -/
theorem c9_published_external (d : String → String) (parent : String)
    (l : List IField) :
    (∀ s ∈ intStmts d parent l, s.pred = "<is:path>" →
      (⟨s.sub, "<is:published>", quote "true"⟩ : Stmt)
        ∈ intStmts d parent l) ∧
    (∀ nm f, (nm, f) ∈ recordsI parent l → f.external ≠ "" →
      (⟨blank d "package" nm, "<external:type>", quote f.external⟩ : Stmt)
        ∈ intStmts d parent l) ∧
    (∀ s ∈ intStmts d parent l, s.pred = "<external:type>" →
      ∃ nm f, (nm, f) ∈ recordsI parent l ∧ f.external ≠ "" ∧
        s.sub = blank d "package" nm ∧ s.obj = quote f.external) :=
  ⟨intStmts_pub d parent l, recordsI_ext_emit d parent l,
    intStmts_ext_src d parent l⟩

/-- C9 (witness): the root record `a` (type `keyword`, tagged
`external: ecs`) yields a published node and an `external:type`
statement naming the tag. -/
theorem c9_published_external_witness :
    ((⟨blank idD "package" "a", "<is:published>", quote "true"⟩ : Stmt)
        ∈ intStmts idD "" intDoc9) ∧
    ((⟨blank idD "package" "a", "<external:type>", quote "ecs"⟩ : Stmt)
        ∈ intStmts idD "" intDoc9) := by
  constructor
  · exact (c9_published_external idD "" intDoc9).1
      ⟨blank idD "package" "a", "<is:path>", quote "a"⟩
      (by simp only [intDoc9, intStmts]; decide) rfl
  · exact (c9_published_external idD "" intDoc9).2.1 "a"
      (.mk "a" "keyword" "ecs" [] []) (by simp [intDoc9, recordsI])
      (by decide)

theorem emitS_sub {d : String → String} {field typ : String}
    {ms : List SMulti} {s : Stmt} (hs : s ∈ emitS d field typ ms) :
    ∃ p, s.sub = blank d "schema" p := by
  simp only [emitS, List.mem_append, List.mem_flatMap, List.mem_range,
    List.mem_cons, List.not_mem_nil, or_false] at hs
  rcases hs with (⟨i, hi, (rfl | rfl | rfl | rfl)⟩ | (rfl | rfl | rfl)) |
    ⟨m, hm, (rfl | rfl | rfl | rfl)⟩ <;> exact ⟨_, rfl⟩

theorem emitI_no_istype {d : String → String} {full typ ext : String}
    {ms : List IMulti} {s : Stmt} (hs : s ∈ emitI d full typ ext ms)
    (hp : s.pred = "<is:type>") : False := by
  simp only [emitI, List.mem_append, List.mem_flatMap, List.mem_range,
    List.mem_cons, List.not_mem_nil, or_false] at hs
  rcases hs with ((((⟨i, hi, (rfl | rfl | rfl | rfl | rfl)⟩ |
      (rfl | rfl | rfl)) | hext) | htyp)) |
      ⟨m, hm, (rfl | rfl | rfl | rfl | rfl)⟩
  · simp at hp
  · simp at hp
  · simp at hp
  · simp at hp
  · simp at hp
  · simp at hp
  · simp at hp
  · simp at hp
  · rcases Decidable.em (ext = "") with he | he
    · rw [if_pos he] at hext
      exact absurd hext (List.not_mem_nil _)
    · rw [if_neg he] at hext
      rcases List.mem_singleton.1 hext with rfl
      simp at hp
  · rcases Decidable.em (typ = "") with he | he
    · rw [if_pos he] at htyp
      exact absurd htyp (List.not_mem_nil _)
    · rw [if_neg he] at htyp
      rcases List.mem_singleton.1 htyp with rfl
      simp at hp
  · simp at hp
  · simp at hp
  · simp at hp
  · simp at hp
  · simp at hp

theorem emitI_child_obj {d : String → String} {full typ ext : String}
    {ms : List IMulti} {s : Stmt} (hs : s ∈ emitI d full typ ext ms)
    (hp : s.pred = "<has:child>") : ∃ p, s.obj = blank d "package" p := by
  simp only [emitI, List.mem_append, List.mem_flatMap, List.mem_range,
    List.mem_cons, List.not_mem_nil, or_false] at hs
  rcases hs with ((((⟨i, hi, (rfl | rfl | rfl | rfl | rfl)⟩ |
      (rfl | rfl | rfl)) | hext) | htyp)) |
      ⟨m, hm, (rfl | rfl | rfl | rfl | rfl)⟩
  · simp at hp
  · simp at hp
  · simp at hp
  · simp at hp
  · exact ⟨_, rfl⟩
  · simp at hp
  · simp at hp
  · simp at hp
  · rcases Decidable.em (ext = "") with he | he
    · rw [if_pos he] at hext
      exact absurd hext (List.not_mem_nil _)
    · rw [if_neg he] at hext
      rcases List.mem_singleton.1 hext with rfl
      simp at hp
  · rcases Decidable.em (typ = "") with he | he
    · rw [if_pos he] at htyp
      exact absurd htyp (List.not_mem_nil _)
    · rw [if_neg he] at htyp
      rcases List.mem_singleton.1 htyp with rfl
      simp at hp
  · simp at hp
  · simp at hp
  · simp at hp
  · simp at hp
  · simp at hp

theorem emitS_child_group {d : String → String} {field typ : String}
    {ms : List SMulti} {s : Stmt} (hs : s ∈ emitS d field typ ms)
    (hp : s.pred = "<has:child>") :
    (⟨s.sub, "<is:type>", quote "group"⟩ : Stmt) ∈ emitS d field typ ms := by
  simp only [emitS, List.mem_append, List.mem_flatMap, List.mem_range,
    List.mem_cons, List.not_mem_nil, or_false] at hs ⊢
  rcases hs with (⟨i, hi, (rfl | rfl | rfl | rfl)⟩ | (rfl | rfl | rfl)) |
    ⟨m, hm, (rfl | rfl | rfl | rfl)⟩
  · simp at hp
  · simp at hp
  · simp at hp
  · exact Or.inl (Or.inl ⟨i, hi, Or.inl rfl⟩)
  · simp at hp
  · simp at hp
  · simp at hp
  · simp at hp
  · simp at hp
  · simp at hp
  · simp at hp

theorem schemaStmts_sub (d : String → String) (parent : String)
    (l : List (String × SField)) :
    ∀ s ∈ schemaStmts d parent l, ∃ p, s.sub = blank d "schema" p := by
  induction parent, l using schemaStmts.induct d with
  | case1 parent => simp [schemaStmts]
  | case2 parent field typ fs ms rest ih1 ih2 =>
      intro s hs
      rw [schemaStmts] at hs
      rcases List.mem_append.1 hs with h | h
      · rcases List.mem_append.1 h with h | h
        · exact ih1 s h
        · rcases Decidable.em (parent = "") with he | he
          · rw [if_pos he] at h
            exact absurd h (List.not_mem_nil _)
          · rw [if_neg he] at h
            exact emitS_sub h
      · exact ih2 s h

theorem intStmts_no_istype (d : String → String) (parent : String)
    (l : List IField) :
    ∀ s ∈ intStmts d parent l, s.pred = "<is:type>" → False := by
  induction parent, l using intStmts.induct d with
  | case1 parent => simp [intStmts]
  | case2 parent nm typ ext fs ms rest ih1 ih2 =>
      intro s hs hp
      rw [intStmts] at hs
      rcases List.mem_append.1 hs with h | h
      · rcases List.mem_append.1 h with h | h
        · exact ih1 s h hp
        · exact emitI_no_istype h hp
      · exact ih2 s h hp

theorem intStmts_child_obj (d : String → String) (parent : String)
    (l : List IField) :
    ∀ s ∈ intStmts d parent l, s.pred = "<has:child>" →
      ∃ p, s.obj = blank d "package" p := by
  induction parent, l using intStmts.induct d with
  | case1 parent => simp [intStmts]
  | case2 parent nm typ ext fs ms rest ih1 ih2 =>
      intro s hs hp
      rw [intStmts] at hs
      rcases List.mem_append.1 hs with h | h
      · rcases List.mem_append.1 h with h | h
        · exact ih1 s h hp
        · exact emitI_child_obj h hp
      · exact ih2 s h hp

theorem schemaStmts_child_group (d : String → String) (parent : String)
    (l : List (String × SField)) :
    ∀ s ∈ schemaStmts d parent l, s.pred = "<has:child>" →
      (⟨s.sub, "<is:type>", quote "group"⟩ : Stmt)
        ∈ schemaStmts d parent l := by
  induction parent, l using schemaStmts.induct d with
  | case1 parent => simp [schemaStmts]
  | case2 parent field typ fs ms rest ih1 ih2 =>
      intro s hs hp
      rw [schemaStmts] at hs ⊢
      rcases List.mem_append.1 hs with h | h
      · rcases List.mem_append.1 h with h | h
        · exact List.mem_append.2 (Or.inl (List.mem_append.2
            (Or.inl (ih1 s h hp))))
        · rcases Decidable.em (parent = "") with he | he
          · rw [if_pos he] at h
            exact absurd h (List.not_mem_nil _)
          · rw [if_neg he] at h
            refine List.mem_append.2 (Or.inl (List.mem_append.2
              (Or.inr ?_)))
            rw [if_neg he]
            exact emitS_child_group h hp
      · exact List.mem_append.2 (Or.inr (ih2 s h hp))

theorem hasChild_typed (d : String → String) (hd : Function.Injective d)
    (A : List (String × SField)) (B : List IField) :
    ∀ s ∈ schemaStmts d "" A ++ intStmts d "" B, s.pred = "<has:child>" →
      TypedIn (schemaStmts d "" A ++ intStmts d "" B) s.obj →
      TypedIn (schemaStmts d "" A ++ intStmts d "" B) s.sub := by
  intro s hs hpred hobj
  rcases List.mem_append.1 hs with h | h
  · exact ⟨quote "group", List.mem_append.2
      (Or.inl (schemaStmts_child_group d "" A s h hpred))⟩
  · rcases intStmts_child_obj d "" B s h hpred with ⟨p, hobjP⟩
    rcases hobj with ⟨t, ht⟩
    exfalso
    rcases List.mem_append.1 ht with h2 | h2
    · rcases schemaStmts_sub d "" A _ h2 with ⟨p', hsubP⟩
      exact schema_package_ne hd p' p (hsubP ▸ hobjP)
    · exact intStmts_no_istype d "" B _ h2 rfl

theorem Out_g {q : Query} {f : Stmt → Bool} : (q.Out f).g = q.g := rfl

theorem In_g {q : Query} {f : Stmt → Bool} : (q.In f).g = q.g := rfl

theorem And_g {q r : Query} : (q.And r).g = q.g := rfl

theorem stepQ_g {q : Query} {p : String} : (stepQ q p).g = q.g := rfl

theorem typeFiltered_g {q : Query} {typ : String} :
    (typeFiltered q typ).g = q.g := rfl

theorem typeFiltered_typed {q : Query} {typ : String} :
    ∀ x ∈ (typeFiltered q typ).terms, TypedIn q.g x := by
  intro x hx
  rcases mem_And.1 hx with ⟨hIn, _⟩
  rcases mem_In.1 hIn with ⟨s, hs, hmT, _, hsub⟩
  simp only [matchTypeP, Bool.and_eq_true, beq_iff_eq] at hmT
  rcases hmT with ⟨hpred, hobjT⟩
  refine ⟨typ, ?_⟩
  have hseq : s = ⟨x, "<is:type>", typ⟩ := by
    cases s
    simp only [Stmt.mk.injEq]
    exact ⟨hsub ▸ rfl, hpred, hobjT⟩
  exact hseq ▸ hs

theorem stepQ_typed {G : List Stmt}
    (HC : ∀ s ∈ G, s.pred = "<has:child>" → TypedIn G s.obj →
      TypedIn G s.sub)
    {q : Query} (hg : q.g = G) (hterms : ∀ x ∈ q.terms, TypedIn G x)
    (p : String) : ∀ x ∈ (stepQ q p).terms, TypedIn G x := by
  intro x hx
  rcases mem_And.1 hx with ⟨_, hc⟩
  rcases mem_In.1 hc with ⟨s, hs, hChild, hobj, hsub⟩
  have hpred : s.pred = "<has:child>" := by simpa [hasChild] using hChild
  exact hsub ▸ HC s (hg ▸ hs) hpred (hterms _ hobj)

theorem stepR_typed {G : List Stmt}
    (HC : ∀ s ∈ G, s.pred = "<has:child>" → TypedIn G s.obj →
      TypedIn G s.sub)
    {q : Query} (hg : q.g = G) (hterms : ∀ x ∈ q.terms, TypedIn G x)
    (p : String) : ∀ v ∈ stepR q p,
      ∃ x, TypedIn G x ∧ (⟨x, "<is:path>", v⟩ : Stmt) ∈ G := by
  intro v hv
  unfold stepR at hv
  rw [Query.Result, Query.Unique] at hv
  rcases mem_Out.1 (List.mem_dedup.1 hv) with ⟨s, hs, hbp, hsub, hobj⟩
  have hpred : s.pred = "<is:path>" := by simpa [byPath] using hbp
  refine ⟨s.sub, stepQ_typed HC hg hterms p _ hsub, ?_⟩
  have hseq : s = ⟨s.sub, "<is:path>", v⟩ := by rw [← hpred, ← hobj]
  exact hseq ▸ (hg ▸ hs)

theorem walkLoop_typed {G : List Stmt}
    (HC : ∀ s ∈ G, s.pred = "<has:child>" → TypedIn G s.obj →
      TypedIn G s.sub) :
    ∀ (names : List String) (q : Query) (final : List String), q.g = G →
      (∀ x ∈ q.terms, TypedIn G x) →
      (∀ v ∈ final, ∃ x, TypedIn G x ∧ (⟨x, "<is:path>", v⟩ : Stmt) ∈ G) →
      ∀ v ∈ walkLoop q names final,
        ∃ x, TypedIn G x ∧ (⟨x, "<is:path>", v⟩ : Stmt) ∈ G := by
  intro names
  induction names with
  | nil =>
      intro q final hg ht hf v hv
      exact hf v (by simpa [walkLoop] using hv)
  | cons p rest ih =>
      intro q final hg ht hf v hv
      rw [walkLoop] at hv
      by_cases hr : stepR q p = []
      · rw [if_pos hr] at hv
        exact hf v hv
      · rw [if_neg hr] at hv
        exact ih (stepQ q p) (stepR q p) (by rw [stepQ_g, hg])
          (stepQ_typed HC hg ht p) (stepR_typed HC hg ht p) v hv

theorem walkMatchingPath_typed {G : List Stmt}
    (HC : ∀ s ∈ G, s.pred = "<has:child>" → TypedIn G s.obj →
      TypedIn G s.sub)
    {q : Query} (hg : q.g = G) (typ : String) (path : List String) :
    ∀ v ∈ walkMatchingPath q typ path,
      ∃ x, TypedIn G x ∧ (⟨x, "<is:path>", v⟩ : Stmt) ∈ G := by
  intro v hv
  unfold walkMatchingPath at hv
  refine walkLoop_typed HC _ (typeFiltered q typ) []
    (by rw [typeFiltered_g, hg]) ?_ (by simp) v hv
  intro x hx
  exact hg ▸ typeFiltered_typed x hx

/-- C10: on any graph obtained by flattening a taxonomy document and an
authored document (with an injective digest), every candidate path returned
by `CandidateGraftsFor` or `CandidateGraftsIn` is the `is:path` literal of
a node whose declared type is recorded with the taxonomy predicate
`is:type`; nodes typed solely through the authored predicate `as:type`
(which is what `CandidateGraftsIn` reads the queried field's own type with)
never supply a candidate. -/
theorem c10_candidates_is_type (d : String → String)
    (hd : Function.Injective d) (A : List (String × SField))
    (B : List IField) (full typ : String) (ps : List String) :
    (CandidateGraftsFor (schemaStmts d "" A ++ intStmts d "" B) full typ
        = .ok ps →
      ∀ v ∈ ps, ∃ x,
        TypedIn (schemaStmts d "" A ++ intStmts d "" B) x ∧
        (⟨x, "<is:path>", v⟩ : Stmt)
          ∈ schemaStmts d "" A ++ intStmts d "" B) ∧
    (CandidateGraftsIn (schemaStmts d "" A ++ intStmts d "" B) full
        = .ok ps →
      ∀ v ∈ ps, ∃ x,
        TypedIn (schemaStmts d "" A ++ intStmts d "" B) x ∧
        (⟨x, "<is:path>", v⟩ : Stmt)
          ∈ schemaStmts d "" A ++ intStmts d "" B) := by
  constructor
  · intro hok
    unfold CandidateGraftsFor at hok
    cases hU : unquote full with
    | none => rw [hU] at hok; exact absurd hok (by simp)
    | some f =>
        simp only [hU] at hok
        cases hTF : TermFor (schemaStmts d "" A ++ intStmts d "" B)
            (quote (lastName f)) with
        | none =>
            simp only [hTF] at hok
            exact absurd hok (by simp)
        | some node =>
            simp only [hTF] at hok
            cases hT : TermFor (schemaStmts d "" A ++ intStmts d "" B)
                typ with
            | none =>
                simp only [hT] at hok
                exact absurd hok (by simp)
            | some typT =>
                simp only [hT, Except.ok.injEq] at hok
                rw [← hok]
                exact walkMatchingPath_typed (hasChild_typed d hd A B)
                  rfl typT (splitDot f)
  · intro hok
    unfold CandidateGraftsIn at hok
    cases hTF : TermFor (schemaStmts d "" A ++ intStmts d "" B) full with
    | none => rw [hTF] at hok; exact absurd hok (by simp)
    | some node =>
        have hnode := TermFor_some hTF
        rw [hnode] at hTF
        simp only [hTF] at hok
        cases hU : unquote full with
        | none => simp [hU] at hok
        | some f =>
            simp only [hU] at hok
            rcases htyps : graftTyps (schemaStmts d "" A ++ intStmts d "" B)
                full with _ | ⟨t, _ | ⟨t2, ts⟩⟩ <;>
              simp only [htyps] at hok
            · exact absurd hok (by simp)
            · simp only [Except.ok.injEq] at hok
              rw [← hok]
              exact walkMatchingPath_typed (hasChild_typed d hd A B)
                rfl t (splitDot f)
            · exact absurd hok (by simp)

/-- C10 (witness): on the Scenario 1 graph the single returned candidate
path `"registry"` belongs to a node recorded with an `is:type` declared
type (the taxonomy group node). -/
theorem c10_candidates_is_type_witness :
    ∃ x, TypedIn (schemaStmts idD "" schemaDoc1 ++ intStmts idD "" intDoc1)
        x ∧
      (⟨x, "<is:path>", quote "registry"⟩ : Stmt)
        ∈ schemaStmts idD "" schemaDoc1 ++ intStmts idD "" intDoc1 := by
  exact (c10_candidates_is_type idD (fun _ _ h => h) schemaDoc1 intDoc1
      (quote "registry.path") (quote "keyword") [quote "registry"]).1
    (by simp only [schemaDoc1, intDoc1, schemaStmts, intStmts]; decide)
    (quote "registry") (by decide)

end EcsInRdf
